import Mathlib

/-!
Verification of the `exn` error-tree library.

The development shallowly embeds the frame-tree model of the crate:

* `src/exn/src/impls.rs` — the `Frame` / `Exn` representation, `Exn::new`
  (with its `walk` over the native source chain), `raise`, `raise_all`,
  the recovery channel, `Deref`, and `Error::source` for `Frame`;
* `src/exn/src/impls/mod.rs` — the revision whose `new` captures per-error
  locations through `make_location` (duck-typed `request_ref::<Location>`);
* `src/exn/src/debug.rs` — the indented renderer `write_exn`;
* `src/exn/src/report/compact.rs` — the compact box-drawing renderer;
* `src/examples/src/downcast.rs` — the depth-first payload search.

Rust errors are modelled by `NativeError`: a runtime type tag (standing for
the concrete Rust type, used by `downcast_ref`), a display string, an
optional provided `Location` (the `request_ref::<Location>` answer), and an
optional native source. Type-erased payloads stored in frames are
`ErasedError`: the tag together with the display text. The private
`SourceError` wrapper type of `Exn::new` is a type distinct from every user
error type, so it gets the dedicated tag `Tag.sourceError`.
-/

/-- Source-position record: `core::panic::Location` (file, line, column). -/
structure Location where
  file : String
  line : Nat
  column : Nat
deriving DecidableEq, Repr

/-- Runtime type identity of an error payload, as used by `downcast_ref`.
`Tag.user n` stands for the n-th user-defined concrete error type;
`Tag.sourceError` is the private `SourceError` wrapper of `Exn::new`,
a type no caller can name. -/
inductive Tag where
  | sourceError
  | user (n : Nat)
deriving DecidableEq, Repr

/-- A type-erased error payload (`Box<dyn Error + Send + Sync>`): its runtime
type tag plus the display text it renders as. -/
structure ErasedError where
  tag : Tag
  display : String
deriving DecidableEq, Repr

/-- A native Rust error value as the library observes it: concrete type tag,
display text, the optional `Location` it can provide through
`request_ref::<Location>`, and the optional `Error::source` link. -/
inductive NativeError where
  | mk (tag : Nat) (display : String) (providedLoc : Option Location)
      (source : Option NativeError)

/-- Concrete type tag of the error. -/
def NativeError.tag : NativeError → Nat
  | .mk t _ _ _ => t

/-- Display text of the error. -/
def NativeError.display : NativeError → String
  | .mk _ d _ _ => d

/-- The location the error provides via `request_ref::<Location>`, if any. -/
def NativeError.providedLoc : NativeError → Option Location
  | .mk _ _ p _ => p

/-- The native `Error::source` link, if any. -/
def NativeError.source : NativeError → Option NativeError
  | .mk _ _ _ s => s

/-- The native source chain `s1, ..., sn` of an error, outermost first. -/
def NativeError.sources : NativeError → List NativeError
  | .mk _ _ _ (some s) => s :: s.sources
  | .mk _ _ _ none => []

/-- A frame in the exception tree (`Frame` in `src/exn/src/impls.rs`):
the erased error payload, the recorded source location, and the ordered
child frames. -/
inductive Frame where
  | mk (error : ErasedError) (location : Location) (children : List Frame)

/-- The error payload stored at this frame (`Frame::error`). -/
def Frame.error : Frame → ErasedError
  | .mk e _ _ => e

/-- The location stored at this frame (`Frame::location`). -/
def Frame.location : Frame → Location
  | .mk _ l _ => l

/-- The child frames (`Frame::children`). -/
def Frame.children : Frame → List Frame
  | .mk _ _ cs => cs

/-- Height of a frame tree: a leaf has height 0, otherwise one more than the
greatest child height. This is the "depth" of the tree in the spec's sense. -/
def Frame.height : Frame → Nat
  | .mk _ _ [] => 0
  | .mk e l (c :: cs) => max (c.height + 1) (Frame.height (.mk e l cs))

/-- Model of `downcast_ref::<T>` on an erased payload: succeeds (returning the
payload) exactly when the stored runtime tag is the user type `t`. -/
def downcastRef (er : ErasedError) (t : Nat) : Option ErasedError :=
  if er.tag = Tag.user t then some er else none

/-- The `walk` helper inside `Exn::new` (`src/exn/src/impls.rs:72-83`): if the
error has a native source, produce a single child frame wrapping the source's
display text as a `SourceError`, recursively walking further sources. Every
frame of the walk records the same location (the one captured by `new`). -/
def walk : NativeError → Location → List Frame
  | .mk _ _ _ (some s), loc => [Frame.mk ⟨Tag.sourceError, s.display⟩ loc (walk s loc)]
  | .mk _ _ _ none, _ => []

/-- The frame built by `Exn::new(error)` (`src/exn/src/impls.rs:54-98`), with
`loc` the captured `Location::caller()`. -/
def newFrame (e : NativeError) (loc : Location) : Frame :=
  Frame.mk ⟨Tag.user e.tag, e.display⟩ loc (walk e loc)

/-- The frame built by `Exn::raise` (`src/exn/src/impls.rs:116-122`): build a
fresh frame for `e` via `Exn::new`, then push the previous root `prev` onto
its children. -/
def raiseFrame (prev : Frame) (e : NativeError) (loc : Location) : Frame :=
  match newFrame e loc with
  | .mk er l cs => Frame.mk er l (cs ++ [prev])

/-- The frame built by `Exn::raise_all(error, children)`
(`src/exn/src/impls.rs:100-114`, same shape as `Exn::from_iter` in
`src/exn/src/impls/mod.rs:119-128`): build a fresh frame for `e` via
`Exn::new`, then push each child's root in iteration order. -/
def raiseAllFrame (e : NativeError) (children : List Frame) (loc : Location) : Frame :=
  match newFrame e loc with
  | .mk er l cs => Frame.mk er l (cs ++ children)

/-- Iterated `raise`: apply the raises in `es` (error and call-site location,
in order) starting from root frame `f`. -/
def iterRaise (f : Frame) : List (NativeError × Location) → Frame
  | [] => f
  | (e, l) :: rest => iterRaise (raiseFrame f e l) rest

/-- The successive roots of an `iterRaise` sequence: entry `k` is the root
after `k` raises. -/
def rootsList (f : Frame) : List (NativeError × Location) → List Frame
  | [] => [f]
  | (e, l) :: rest => f :: rootsList (raiseFrame f e l) rest

/-- The linear display-only chain the spec describes for translated native
causes: each text becomes one frame tagged `Tag.sourceError`, each wrapping
the next. -/
def displayChain : List String → Location → List Frame
  | [], _ => []
  | t :: rest, loc => [Frame.mk ⟨Tag.sourceError, t⟩ loc (displayChain rest loc)]

/-- Frames of `Exn` handles producible through the public construction surface
of `src/exn/src/impls.rs`, indexed by the handle's static (phantom) root type
tag `E`. `Exn::new` and `From` give the `new` constructor; `Exn::raise` and
`Exn::raise_with_recovery` give `raise`; `Exn::raise_all` and
`Exn::raise_all_with_recovery` give `raiseAll` (their children are themselves
handles); `Exn::with_recovery` builds the same frame as `Exn::new`, and
`recover` / `discard_recovery` pass the frame through unchanged, so none of
the recovery operations adds a frame shape. -/
inductive Produced : Nat → Frame → Prop where
  | new (e : NativeError) (loc : Location) : Produced e.tag (newFrame e loc)
  | raise (E : Nat) (f : Frame) (e : NativeError) (loc : Location) :
      Produced E f → Produced e.tag (raiseFrame f e loc)
  | raiseAll (T : Nat) (e : NativeError) (cs : List Frame) (loc : Location) :
      (∀ c ∈ cs, Produced T c) → Produced e.tag (raiseAllFrame e cs loc)

mutual

/-- Pre-order listing of the error payloads of a frame tree: the node's own
payload, then the payloads of its children, left to right. -/
def preorder : Frame → List ErasedError
  | .mk e l cs => Frame.error (.mk e l cs) :: preorderList cs
termination_by f => sizeOf f

/-- Pre-order payload listing of a forest. -/
def preorderList : List Frame → List ErasedError
  | [] => []
  | c :: rest => preorder c ++ preorderList rest
termination_by cs => sizeOf cs

end

mutual

/-- The `walk` helper of `find_error` (`src/examples/src/downcast.rs:63-71`):
try to downcast the current frame's payload to the user type `t`, else search
the children recursively with `find_map`. -/
def findErr : Frame → Nat → Option ErasedError
  | .mk e l cs, t =>
    match downcastRef (Frame.error (.mk e l cs)) t with
    | some er => some er
    | none => findInList cs t
termination_by f _ => sizeOf f

/-- The `find_map` part of the search: first `some` over the children. -/
def findInList : List Frame → Nat → Option ErasedError
  | [], _ => none
  | c :: rest, t =>
    match findErr c t with
    | some er => some er
    | none => findInList rest t
termination_by cs _ => sizeOf cs

end

/-- Render one frame's header line: display text plus location, as both
renderers do with their `, at file:line:column` format string. -/
def header (f : Frame) : String :=
  f.error.display ++ ", at " ++ f.location.file ++ ":" ++ toString f.location.line
    ++ ":" ++ toString f.location.column

mutual

/-- The indented renderer `write_exn` (`src/exn/src/debug.rs:33-63`): header
line, then each child preceded by a rail line and an arrow line. -/
def writeExn : Frame → Nat → String → String
  | .mk e l cs, level, pre =>
    header (.mk e l cs) ++ writeKids level pre cs.length 0 cs
termination_by f _ _ => sizeOf f

/-- The child loop of `write_exn`: `level` and `pre` are the caller's, `total`
the child count, `i` the index of the first remaining child. -/
def writeKids (level : Nat) (pre : String) (total i : Nat) : List Frame → String
  | [] => ""
  | c :: rest =>
    "\n" ++ pre ++ "|" ++ "\n" ++ pre ++ "|-> " ++
      (if level = 0 ∧ total = 1 ∧ c.children.length = 1 then
        writeExn c 0 pre
      else if i < total - 1 then
        writeExn c (level + 1) (pre ++ "|   ")
      else
        writeExn c (level + 1) (pre ++ "    "))
      ++ writeKids level pre total (i + 1) rest
termination_by cs => sizeOf cs

end

mutual

/-- The compact renderer `CompactFrame::debug_recursive`
(`src/exn/src/report/compact.rs:135-168`): header line, then the child loop. -/
def compactNode : Frame → Bool → String → String
  | .mk e l cs, root, pre =>
    header (.mk e l cs) ++ compactKids root pre cs.length 0 cs
termination_by f _ _ => sizeOf f

/-- The child loop of `debug_recursive`: the root-anchored single-child fast
path keeps `root` and the running prefix; otherwise children with following
siblings get the tee connector and continuation rail, the last child gets the
corner connector and blank continuation. -/
def compactKids (root : Bool) (pre : String) (total i : Nat) : List Frame → String
  | [] => ""
  | c :: rest =>
    (if root = true ∧ total = 1 ∧ c.children.length = 1 then
      "\n" ++ pre ++ "├─ " ++ compactNode c root pre
    else if i + 1 < total then
      "\n" ++ pre ++ "├─ " ++ compactNode c false (pre ++ "│  ")
    else
      "\n" ++ pre ++ "└─ " ++ compactNode c false (pre ++ "   "))
      ++ compactKids root pre total (i + 1) rest
termination_by cs => sizeOf cs

end

mutual

/-- Renderer following the spec's compact-form words only: each child is
prefixed with the tee connector exactly when it has following siblings
(continuation rail below it) and with the corner connector when it is the
last child (three-space continuation below it); the root line carries no
connector. -/
def specCompact : Frame → String → String
  | .mk e l cs, pre => header (.mk e l cs) ++ specKids pre cs
termination_by f _ => sizeOf f

/-- Child loop of the spec-side compact renderer. -/
def specKids (pre : String) : List Frame → String
  | [] => ""
  | [c] => "\n" ++ pre ++ "└─ " ++ specCompact c (pre ++ "   ")
  | c :: rest =>
    "\n" ++ pre ++ "├─ " ++ specCompact c (pre ++ "│  ") ++ specKids pre rest
termination_by cs => sizeOf cs

end

/-- Decides whether the public compact render (which starts with `root` set)
enters the single-child fast path at its first step: the root has exactly one
child and that child itself has exactly one child. -/
def fastRoot : Frame → Bool
  | .mk _ _ [c] => c.children.length = 1
  | _ => false

/-- An `Exn<E, R>` handle (`src/exn/src/impls.rs:27-32`): the root frame plus
the carried recovery value. A plain `Exn<E>` is `ExnR Unit`. -/
structure ExnR (R : Type) where
  frame : Frame
  recovery : R

/-- `Exn::with_recovery(error, recovery)` (`src/exn/src/impls.rs:164-170`):
the frame of `Exn::new(error)` together with the recovery value. -/
def withRecovery {R : Type} (e : NativeError) (loc : Location) (r : R) : ExnR R :=
  ⟨newFrame e loc, r⟩

/-- `Exn::discard_recovery` (`src/exn/src/impls.rs:173-179`): drop the carried
value, keep the frame. -/
def discardRecovery {R : Type} (x : ExnR R) : ExnR Unit :=
  ⟨x.frame, ()⟩

/-- `Exn::recover` (`src/exn/src/impls.rs:182-189`): hand the carried value
back together with the plain handle around the unchanged frame. -/
def recover {R : Type} (x : ExnR R) : R × ExnR Unit :=
  (x.recovery, ⟨x.frame, ()⟩)

/-- `<Frame as Error>::source` (`src/exn/src/impls.rs:233-239`): the first
child if any. -/
def sourceStd (f : Frame) : Option Frame :=
  f.children.head?

/-- The native cause chain observed after `From<Exn<E>> for Box<dyn Error>`
(`src/exn/src/impls.rs:241-257`) hands the root frame to std: iterate
`Error::source` from the root. -/
def stdChain (f : Frame) : List Frame :=
  match h : sourceStd f with
  | none => []
  | some c => c :: stdChain c
termination_by sizeOf f
decreasing_by
  cases f with
  | mk e l cs =>
    cases cs with
    | nil => exact absurd h (by simp [sourceStd, Frame.children])
    | cons a rest =>
      simp only [sourceStd, Frame.children, List.head?, Option.some.injEq] at h
      subst h
      simp
      omega

/-- The path of first children below a frame, spelled out structurally: the
spec-side description of the chain `Error::source` is expected to walk. -/
def firstPath : Frame → List Frame
  | .mk _ _ [] => []
  | .mk _ _ (c :: _) => c :: firstPath c

/-- A node of the `ExnImpl` tree of the `src/exn/src/impls/mod.rs` revision:
erased payload, attached context entries, children. Only `Location` context
entries matter here because `new` in that revision attaches exactly the
captured locations as context. -/
inductive ExnImpl where
  | mk (error : ErasedError) (context : List Location) (children : List ExnImpl)

/-- The context entries of an `ExnImpl` node. -/
def ExnImpl.context : ExnImpl → List Location
  | .mk _ ctx _ => ctx

/-- The children of an `ExnImpl` node. -/
def ExnImpl.childrenOf : ExnImpl → List ExnImpl
  | .mk _ _ cs => cs

/-- The source position of the `Location::caller()` call inside
`make_location` (`src/exn/src/impls/mod.rs:54`). The nested helper
`make_location` is NOT annotated `#[track_caller]`, so `#[track_caller]`
propagation from `new` stops at it and `Location::caller()` resolves to this
fixed library-internal position, not to the call site of `new`. -/
def internalLoc : Location := ⟨"exn/src/impls/mod.rs", 54, 22⟩

/-- `make_location` (`src/exn/src/impls/mod.rs:51-56`): the location the error
provides through `request_ref::<Location>` when there is one; otherwise the
`Location::caller()` fallback, which — `make_location` not being
`#[track_caller]` — is the fixed position `internalLoc` of that call. -/
def makeLocation (e : NativeError) : Location :=
  match e.providedLoc with
  | some l => l
  | none => internalLoc

/-- The `sources` vector collected by `new` in `src/exn/src/impls/mod.rs:71-80`:
for each native source in chain order, its `make_location` answer and its
display text. -/
def collectSources (e : NativeError) : List (Location × String) :=
  e.sources.map fun s => (makeLocation s, s.display)

/-- The pop-loop of `new` (`src/exn/src/impls/mod.rs:82-99`) rendered as
structural recursion: the loop pops from the back of the vector, building the
innermost node first and wrapping outward, so the head of the list ends up
wrapping the tree built from the tail. Returns `none` for an empty vector
(the `None` arm of the surrounding `if let`). -/
def buildSourceTree : List (Location × String) → Option ExnImpl
  | [] => none
  | (l, s) :: rest =>
    match buildSourceTree rest with
    | none => some (.mk ⟨Tag.sourceError, s⟩ [l] [])
    | some sub => some (.mk ⟨Tag.sourceError, s⟩ [l] [sub])

/-- `Exn::new` of the `src/exn/src/impls/mod.rs` revision (lines 47-117):
root node holds the typed payload and the context `[make_location(error)]`;
its sole child, when the error has native sources, is the chain built by the
pop-loop. The `_caller` argument is the implicit location that the
`#[track_caller]` annotation on `new` makes its callers pass; the function
body never consults it, because every location goes through the untracked
`make_location`. -/
def newImpl (e : NativeError) (_caller : Location) : ExnImpl :=
  ExnImpl.mk ⟨Tag.user e.tag, e.display⟩ [makeLocation e]
    (match buildSourceTree (collectSources e) with
    | some t => [t]
    | none => [])

/-- The context lists along the first-child spine of a forest: the head
child's contexts, then the spine of its children, recursively. -/
def spineContexts : List ExnImpl → List (List Location)
  | [] => []
  | .mk _ ctx kids :: _ => ctx :: spineContexts kids

/-! ## Helper lemmas -/

theorem walk_src_none (t : Nat) (d : String) (p : Option Location) (loc : Location) :
    walk (.mk t d p none) loc = [] := by
  simp [walk]

theorem walk_src_some (t : Nat) (d : String) (p : Option Location) (s : NativeError)
    (loc : Location) :
    walk (.mk t d p (some s)) loc = [Frame.mk ⟨Tag.sourceError, s.display⟩ loc (walk s loc)] := by
  simp [walk]

theorem walk_sourceFree (e : NativeError) (loc : Location) (h : e.source = none) :
    walk e loc = [] := by
  cases e with
  | mk t d p s =>
    cases s with
    | none => exact walk_src_none t d p loc
    | some s' => simp [NativeError.source] at h

theorem raiseFrame_eq (f : Frame) (e : NativeError) (l : Location) :
    raiseFrame f e l = Frame.mk ⟨Tag.user e.tag, e.display⟩ l (walk e l ++ [f]) := by
  simp [raiseFrame, newFrame]

theorem raiseFrame_sourceFree (f : Frame) (e : NativeError) (l : Location)
    (h : e.source = none) :
    raiseFrame f e l = Frame.mk ⟨Tag.user e.tag, e.display⟩ l [f] := by
  rw [raiseFrame_eq, walk_sourceFree e l h]
  rfl

theorem raiseAllFrame_eq (e : NativeError) (cs : List Frame) (l : Location) :
    raiseAllFrame e cs l = Frame.mk ⟨Tag.user e.tag, e.display⟩ l (walk e l ++ cs) := by
  simp [raiseAllFrame, newFrame]

theorem height_nil (e : ErasedError) (l : Location) : Frame.height (.mk e l []) = 0 := by
  simp [Frame.height]

theorem height_single (e : ErasedError) (l : Location) (c : Frame) :
    Frame.height (.mk e l [c]) = c.height + 1 := by
  simp [Frame.height]

theorem rootsList_head (f : Frame) (es : List (NativeError × Location)) :
    (rootsList f es).head? = some f := by
  cases es with
  | nil => simp [rootsList]
  | cons p rest =>
    obtain ⟨e, l⟩ := p
    simp [rootsList]

theorem chain_rootsList (es : List (NativeError × Location)) :
    ∀ f : Frame, (∀ p ∈ es, (p.1).source = none) →
      List.Chain' (fun a b => b.children = [a]) (rootsList f es) := by
  induction es with
  | nil => intro f _; simp [rootsList]
  | cons p rest ih =>
    intro f h
    obtain ⟨e, l⟩ := p
    rw [rootsList, List.chain'_cons']
    constructor
    · intro b hb
      rw [rootsList_head, Option.mem_some_iff] at hb
      subst hb
      rw [raiseFrame_sourceFree f e l (h (e, l) (List.mem_cons_self _ _))]
      rfl
    · exact ih _ fun q hq => h q (List.mem_cons_of_mem _ hq)

theorem iterRaise_height (es : List (NativeError × Location)) :
    ∀ f : Frame, (∀ p ∈ es, (p.1).source = none) →
      (iterRaise f es).height = f.height + es.length := by
  induction es with
  | nil => intro f _; simp [iterRaise]
  | cons p rest ih =>
    intro f h
    obtain ⟨e, l⟩ := p
    rw [iterRaise, ih _ fun q hq => h q (List.mem_cons_of_mem _ hq),
      raiseFrame_sourceFree f e l (h (e, l) (List.mem_cons_self _ _)), height_single]
    simp
    omega

/-! ## Concrete inputs used by counterexamples and witnesses -/

def loc0 : Location := ⟨"ex.rs", 10, 5⟩

def eA : NativeError := .mk 1 "A" none none

def eB : NativeError := .mk 2 "B" none none

def eC : NativeError := .mk 3 "C" none none

def eS : NativeError := .mk 7 "E" none (some (.mk 8 "S" none none))

/-! ## C1 -/

/-- C1, counterexample: raising an error that has a native source does not put
the previous handle's root first. `Exn::new` first materializes the source
chain as children, then `raise` pushes the previous root at the END, so the
first child of `raise(eS)` over the handle for `eA` is the translated source
frame, not the previous root `newFrame eA loc0`. -/
theorem raise_sourced_first_child_cex :
    ¬ (raiseFrame (newFrame eA loc0) eS loc0).children.head? = some (newFrame eA loc0) := by
  intro h
  rw [raiseFrame_eq] at h
  simp only [eS, eA, newFrame, Frame.children, NativeError.display, NativeError.tag,
    walk_src_some, walk_src_none, List.cons_append, List.nil_append, List.head?_cons,
    Option.some.injEq] at h
  have := congrArg Frame.error h
  simp [Frame.error] at this

/-- C1, amended: for every starting error and every sequence of raise calls in
which NO error carries a native source chain, each raise builds a fresh frame
whose only (hence first) child is the immediately previous handle's root, so
the successive roots form a chain linked by first children and the final
tree's height equals the number of raises. -/
theorem raise_chain_sourceFree (e0 : NativeError) (l0 : Location)
    (es : List (NativeError × Location))
    (h0 : e0.source = none) (hs : ∀ p ∈ es, (p.1).source = none) :
    List.Chain' (fun a b => b.children = [a]) (rootsList (newFrame e0 l0) es) ∧
    (iterRaise (newFrame e0 l0) es).height = es.length := by
  refine ⟨chain_rootsList es _ hs, ?_⟩
  rw [iterRaise_height es _ hs]
  rw [newFrame, walk_sourceFree e0 l0 h0, height_nil]
  omega

/-- C1 witness: the amended theorem applied to the concrete two-raise sequence
`A`, then `raise B`, then `raise C`, all source-free. -/
theorem raise_chain_sourceFree_witness :
    List.Chain' (fun a b => b.children = [a])
      (rootsList (newFrame eA loc0) [(eB, loc0), (eC, loc0)]) ∧
    (iterRaise (newFrame eA loc0) [(eB, loc0), (eC, loc0)]).height = 2 :=
  raise_chain_sourceFree eA loc0 [(eB, loc0), (eC, loc0)] rfl
    (by
      intro p hp
      simp only [List.mem_cons, List.not_mem_nil, or_false] at hp
      rcases hp with h | h <;> rw [h] <;> rfl)

/-! ## C2 -/

/-- C2, counterexample: `raise_all(E, [])` for an error `E` whose native
source chain is nonempty does NOT yield a frame with zero children — the
children of the fresh frame start with the materialized source chain. -/
theorem raiseAll_empty_children_cex :
    ¬ (raiseAllFrame eS [] loc0).children = [] := by
  rw [raiseAllFrame_eq]
  simp [eS, walk_src_some, walk_src_none, Frame.children]

/-- C2, amended: for every error `E` WITHOUT a native source chain,
`raise_all(E, children)` yields a frame whose children are exactly the roots
of `children` in iteration order; in particular `raise_all(E, [])` has zero
children and `raise_all(E, [a, b, c])` has children `[a, b, c]`. -/
theorem raiseAll_children_sourceFree (e : NativeError) (l : Location)
    (h : e.source = none) :
    ∀ cs : List Frame, (raiseAllFrame e cs l).children = cs := by
  intro cs
  rw [raiseAllFrame_eq, walk_sourceFree e l h]
  rfl

/-- C2 witness: the amended theorem at the source-free error `A`, for the
empty list and for a three-element list. -/
theorem raiseAll_children_sourceFree_witness :
    (raiseAllFrame eA [] loc0).children = [] ∧
    (raiseAllFrame eA [newFrame eB loc0, newFrame eC loc0, newFrame eB loc0] loc0).children =
      [newFrame eB loc0, newFrame eC loc0, newFrame eB loc0] :=
  ⟨raiseAll_children_sourceFree eA loc0 rfl [],
    raiseAll_children_sourceFree eA loc0 rfl _⟩

/-! ## C3 -/

/-- C3: every frame reachable through the public construction surface with
static root type `E` holds a root payload whose runtime tag is exactly `E`,
so the downcast performed by `Deref for Exn<E>`
(`src/exn/src/impls.rs:192-204`) and `Exn::current_value`
(`src/exn/src/impls/mod.rs:130-138`) succeeds and its panic branch is
unreachable. -/
theorem produced_root_tag_downcast (E : Nat) (f : Frame) (h : Produced E f) :
    f.error.tag = Tag.user E ∧ downcastRef f.error E = some f.error := by
  have htag : f.error.tag = Tag.user E := by
    induction h with
    | new e loc => simp [newFrame, Frame.error]
    | raise E' f' e loc hf ih => rw [raiseFrame_eq]; simp [Frame.error]
    | raiseAll T e cs loc hcs ih => rw [raiseAllFrame_eq]; simp [Frame.error]
  exact ⟨htag, by simp [downcastRef, htag]⟩

/-- C3 witness: the invariant at a concrete handle, `Exn::<A>::new(eA)`
raised into a handle for `C`. -/
theorem produced_root_tag_downcast_witness :
    (raiseFrame (newFrame eA loc0) eC loc0).error.tag = Tag.user 3 ∧
    downcastRef (raiseFrame (newFrame eA loc0) eC loc0).error 3 =
      some (raiseFrame (newFrame eA loc0) eC loc0).error :=
  produced_root_tag_downcast 3 _
    (Produced.raise 1 (newFrame eA loc0) eC loc0 (Produced.new eA loc0))

/-! ## C4 -/

theorem walk_eq_displayChain_aux (e : NativeError) (loc : Location) :
    walk e loc = displayChain (e.sources.map NativeError.display) loc := by
  induction e, loc using walk.induct with
  | case1 t d p s loc ih =>
    simp [walk, NativeError.sources, displayChain, ih, NativeError.display]
  | case2 t d p loc =>
    simp [walk, NativeError.sources, displayChain]

theorem findInList_displayChain (ts : List String) (loc : Location) :
    ∀ t : Nat, findInList (displayChain ts loc) t = none := by
  induction ts with
  | nil => intro t; simp [displayChain, findInList]
  | cons s rest ih =>
    intro t
    simp [displayChain, findInList, findErr, downcastRef, Frame.error, ih t]

/-- C4: for every error `e` with native source chain `s1, ..., sn`,
`Exn::new(e)` builds a root holding `e` with its full concrete type tag, and
below it the linear display-only chain of exactly the renderings of `s1, ...,
sn` in chain order; every frame of that chain is tagged as the private
`SourceError` type, so the depth-first downcast search for ANY user type
(in particular the original concrete source types) fails on the translated
chain — type fidelity is preserved only at the outermost frame. -/
theorem new_walk_displayChain (e : NativeError) (loc : Location) :
    (newFrame e loc).error = ⟨Tag.user e.tag, e.display⟩ ∧
    (newFrame e loc).children = walk e loc ∧
    walk e loc = displayChain (e.sources.map NativeError.display) loc ∧
    ∀ t : Nat, findInList (walk e loc) t = none := by
  refine ⟨by simp [newFrame, Frame.error], by simp [newFrame, Frame.children], ?_, ?_⟩
  · exact walk_eq_displayChain_aux e loc
  · intro t
    rw [walk_eq_displayChain_aux e loc]
    exact findInList_displayChain _ loc t

/-! ## C5 -/

theorem buildSourceTree_ne_none (p : Location × String) (rest : List (Location × String)) :
    buildSourceTree (p :: rest) ≠ none := by
  obtain ⟨l, s⟩ := p
  cases h : buildSourceTree rest <;> simp [buildSourceTree, h]

theorem spineContexts_buildSourceTree (ss : List (Location × String)) :
    spineContexts
      (match buildSourceTree ss with
      | some t => [t]
      | none => []) = ss.map fun p => [p.1] := by
  induction ss with
  | nil => simp [buildSourceTree, spineContexts]
  | cons p rest ih =>
    obtain ⟨l, s⟩ := p
    cases h : buildSourceTree rest with
    | none =>
      cases rest with
      | nil => simp [buildSourceTree, spineContexts]
      | cons q tail => exact absurd h (buildSourceTree_ne_none q tail)
    | some sub =>
      simp only [h] at ih
      simp only [buildSourceTree, h, List.map_cons]
      simp only [spineContexts]
      rw [ih]

theorem newImpl_context_spec (e : NativeError) (caller : Location) :
    (newImpl e caller).context =
      [match e.providedLoc with
      | some l => l
      | none => internalLoc] ∧
    spineContexts (newImpl e caller).childrenOf =
      e.sources.map fun s =>
        [match s.providedLoc with
        | some l => l
        | none => internalLoc] := by
  constructor
  · simp [newImpl, ExnImpl.context, makeLocation]
  · show spineContexts
      (match buildSourceTree (collectSources e) with
      | some t => [t]
      | none => []) = _
    rw [spineContexts_buildSourceTree, collectSources, List.map_map]
    simp [makeLocation, Function.comp]

/-- C5: evaluation of `new` (the `src/exn/src/impls/mod.rs` revision, the one
that performs the duck-typed location query) at the failing inputs. When the
error provides a location through `request_ref::<Location>`, that location is
recorded (second conjunct — this half of the claim holds). But when the error
provides none, the recorded location is the fixed library-internal position
`internalLoc` of the `Location::caller()` call inside the untracked helper
`make_location`, for EVERY call-site location `caller` passed to the
`#[track_caller]`-annotated `new` (first conjunct), and likewise for every
frame materialized from the native cause chain (third conjunct) — not the
call-site location of `new` that the claim (and the annotation on `new`)
require. -/
theorem new_location_fallback_internal :
    (∀ caller : Location, (newImpl eA caller).context = [internalLoc]) ∧
    (∀ caller : Location,
      (newImpl (NativeError.mk 1 "A" (some loc0) none) caller).context = [loc0]) ∧
    (∀ caller : Location,
      spineContexts (newImpl eS caller).childrenOf = [[internalLoc]]) := by
  refine ⟨?_, ?_, ?_⟩
  · intro caller
    rw [(newImpl_context_spec eA caller).1]
    rfl
  · intro caller
    rw [(newImpl_context_spec _ caller).1]
    rfl
  · intro caller
    rw [(newImpl_context_spec eS caller).2]
    rfl

/-! ## C6 -/

theorem compactFalse_eq_spec (f : Frame) : ∀ pre, compactNode f false pre = specCompact f pre := by
  refine @Frame.rec
    (fun f => ∀ pre, compactNode f false pre = specCompact f pre)
    (fun cs => ∀ pre i, compactKids false pre (i + cs.length) i cs = specKids pre cs)
    ?_ ?_ ?_ f
  · intro e l cs ih pre
    simp only [compactNode, specCompact]
    have := ih pre 0
    rw [Nat.zero_add] at this
    rw [this]
  · intro pre i
    simp [compactKids, specKids]
  · intro c rest ihc ihrest pre i
    cases rest with
    | nil =>
      rw [compactKids.eq_2]
      have hcond : ¬(false = true ∧ i + [c].length = 1 ∧ c.children.length = 1) := by
        simp
      rw [if_neg hcond]
      have : ¬ i + 1 < i + [c].length := by simp
      rw [if_neg this, ihc, compactKids.eq_1, specKids]
      simp
    | cons c2 rest2 =>
      rw [compactKids.eq_2]
      have hcond : ¬(false = true ∧ i + (c :: c2 :: rest2).length = 1 ∧
          c.children.length = 1) := by simp
      rw [if_neg hcond]
      have hlt : i + 1 < i + (c :: c2 :: rest2).length := by simp
      rw [if_pos hlt, ihc]
      have hrest := ihrest pre (i + 1)
      have harith : i + 1 + (c2 :: rest2).length = i + (c :: c2 :: rest2).length := by
        simp
        omega
      rw [harith] at hrest
      rw [hrest]
      have hspec : specKids pre (c :: c2 :: rest2) =
          "\n" ++ pre ++ "├─ " ++ specCompact c (pre ++ "│  ") ++ specKids pre (c2 :: rest2) := by
        rw [specKids]
        simp
      rw [hspec]

theorem compactKidsTrue_many (cs : List Frame) : ∀ (pre : String) (i total : Nat),
    total = i + cs.length → 1 < total →
    compactKids true pre total i cs = specKids pre cs := by
  induction cs with
  | nil => intro pre i total htot hgt; rw [compactKids.eq_1, specKids]
  | cons c rest ih =>
    intro pre i total htot hgt
    rw [compactKids.eq_2]
    have hcond : ¬(true = true ∧ total = 1 ∧ c.children.length = 1) := by
      simp
      intro h'
      omega
    rw [if_neg hcond]
    cases rest with
    | nil =>
      have hno : ¬ i + 1 < total := by
        rw [htot]
        simp
      rw [if_neg hno, compactFalse_eq_spec c, compactKids.eq_1, specKids]
      simp
    | cons c2 r2 =>
      have hyes : i + 1 < total := by
        rw [htot]
        simp
      rw [if_pos hyes, compactFalse_eq_spec c,
        ih pre (i + 1) total (by rw [htot]; simp; omega) hgt]
      have hspec : specKids pre (c :: c2 :: r2) =
          "\n" ++ pre ++ "├─ " ++ specCompact c (pre ++ "│  ") ++ specKids pre (c2 :: r2) := by
        rw [specKids]
        simp
      rw [hspec]

theorem compactKidsTrue_single (c : Frame) (pre : String) (h : c.children.length ≠ 1) :
    compactKids true pre 1 0 [c] = specKids pre [c] := by
  rw [compactKids.eq_2]
  have hcond : ¬(true = true ∧ (1 : Nat) = 1 ∧ c.children.length = 1) := by simp [h]
  rw [if_neg hcond]
  have hno : ¬ (0 : Nat) + 1 < 1 := by omega
  rw [if_neg hno, compactFalse_eq_spec c, compactKids.eq_1, specKids]
  simp

theorem compactTrue_eq_spec (f : Frame) (h : fastRoot f = false) :
    ∀ pre, compactNode f true pre = specCompact f pre := by
  cases f with
  | mk e l cs =>
    intro pre
    rw [compactNode.eq_1, specCompact.eq_1]
    cases cs with
    | nil => rw [compactKids.eq_1, specKids]
    | cons c rest =>
      cases rest with
      | nil =>
        have hc : c.children.length ≠ 1 := by
          simp [fastRoot] at h
          exact h
        rw [show (([c] : List Frame)).length = 1 from rfl, compactKidsTrue_single c pre hc]
      | cons c2 r2 =>
        rw [compactKidsTrue_many (c :: c2 :: r2) pre 0 _ (by simp) (by simp)]

def loc1 : Location := ⟨"ex.rs", 1, 1⟩

def loc2 : Location := ⟨"ex.rs", 2, 2⟩

def loc3 : Location := ⟨"ex.rs", 3, 3⟩

def eF : NativeError := .mk 4 "F" none none

def eX : NativeError := .mk 5 "X" none none

def eY : NativeError := .mk 6 "Y" none none

/-- A concrete three-node linear chain, root "C" with sole child "B" with sole
child "A" — the shape produced by two source-free raises. -/
def chainCBA : Frame :=
  .mk ⟨.user 3, "C"⟩ loc0 [.mk ⟨.user 2, "B"⟩ loc0 [.mk ⟨.user 1, "A"⟩ loc0 []]]

/-- A leaf frame whose compact render exercises the non-fast-path root case. -/
def leafW : Frame := .mk ⟨.user 9, "W"⟩ loc0 []

/-- C6, counterexample: on the single-child linear chain C -> B -> A the
compact renderer does NOT follow the claimed connector rule. The root's sole
(hence last) child "B" is printed with the tee connector `├─ ` by the
root-anchored fast path (`root && child_count == 1 && child_child_count == 1`
in `debug_recursive`), where the claim requires the corner connector `└─ `
and a three-space continuation for a last child. -/
theorem compact_linear_chain_cex :
    compactNode chainCBA true "" ≠ specCompact chainCBA "" := by
  have h1 : compactNode chainCBA true "" =
      "C, at ex.rs:10:5\n├─ B, at ex.rs:10:5\n└─ A, at ex.rs:10:5" := by
    simp only [chainCBA, loc0, compactNode, compactKids, header, Frame.error,
      Frame.children, Frame.location]
    rfl
  have h2 : specCompact chainCBA "" =
      "C, at ex.rs:10:5\n└─ B, at ex.rs:10:5\n   └─ A, at ex.rs:10:5" := by
    simp only [chainCBA, loc0, specCompact, specKids, header, Frame.error,
      Frame.children, Frame.location]
    rfl
  rw [h1, h2]
  decide

/-- C6, amended: the compact renderer follows the claimed connector rule —
children with following siblings get `├─ ` and inherit the `│  `
continuation, the last child gets `└─ ` and inherits three spaces, the root
line has no leading connector — on every subtree rendered with the `root`
flag clear, and at the top level whenever the root-anchored single-child
fast path does not fire (root's child count differs from one, or its sole
child does not itself have exactly one child). On the collapsed fast-path
run itself the sole child is instead rendered with `├─ ` and no extra
indentation. The `raise_all(F, [X, Y])` example renders as the claim states. -/
theorem compact_connector_rule :
    (∀ f pre, compactNode f false pre = specCompact f pre) ∧
    (∀ f, fastRoot f = false → ∀ pre, compactNode f true pre = specCompact f pre) ∧
    compactNode (raiseAllFrame eF [newFrame eX loc2, newFrame eY loc3] loc1) true "" =
      "F, at ex.rs:1:1\n├─ X, at ex.rs:2:2\n└─ Y, at ex.rs:3:3" := by
  refine ⟨compactFalse_eq_spec, compactTrue_eq_spec, ?_⟩
  rw [raiseAllFrame_eq]
  simp only [eF, eX, eY, loc1, loc2, loc3, newFrame, walk, NativeError.tag,
    NativeError.display, List.nil_append, compactNode, compactKids, header,
    Frame.error, Frame.children, Frame.location]
  rfl

/-- C6 witness: the root-level connector rule applied to the concrete leaf
frame `leafW`, for which the fast path does not fire. -/
theorem compact_connector_rule_witness :
    compactNode leafW true "" = specCompact leafW "" :=
  compact_connector_rule.2.1 leafW rfl ""

/-! ## C7 -/

/-- The linear three-frame tree built by `A`, then `raise(B)`, then
`raise(C)`, from source-free errors. -/
def chain3 : Frame := raiseFrame (raiseFrame (newFrame eA loc1) eB loc2) eC loc3

/-- C7: rendering the chain built by two raises over source-free errors with
the indented renderer produces exactly the root line, then a rail line and an
arrow line for "B", then a rail line and an arrow line for "A", all without
extra indentation: the single-child fast path of `write_exn` keeps `level` at
0 and the prefix empty across the run. -/
theorem indented_linear_chain :
    writeExn chain3 0 "" =
      "C, at ex.rs:3:3\n|\n|-> B, at ex.rs:2:2\n|\n|-> A, at ex.rs:1:1" := by
  simp only [chain3, raiseFrame, newFrame, walk, eA, eB, eC, loc1, loc2, loc3,
    NativeError.tag, NativeError.display, List.nil_append, writeExn, writeKids,
    header, Frame.error, Frame.children, Frame.location]
  rfl

/-! ## C8 -/

/-- C8: the payload search is a total function computing exactly the first
payload, in pre-order (own node before children, children left to right),
whose runtime tag is the requested user type — so it returns `none` precisely
when no node of that type exists anywhere in the tree, and on a tree with
exactly one matching node it returns that node's payload wherever it sits. -/
theorem find_error_preorder (f : Frame) (t : Nat) :
    findErr f t = ((preorder f).filter fun er => er.tag == Tag.user t).head? := by
  refine @Frame.rec
    (fun f => ∀ t, findErr f t =
      ((preorder f).filter fun er => er.tag == Tag.user t).head?)
    (fun cs => ∀ t, findInList cs t =
      ((preorderList cs).filter fun er => er.tag == Tag.user t).head?)
    ?_ ?_ ?_ f t
  · intro e l cs ih t'
    simp only [findErr, preorder, Frame.error]
    by_cases h : e.tag = Tag.user t'
    · simp [downcastRef, h]
    · simp [downcastRef, h, ih t']
  · intro t'
    simp [findInList, preorderList]
  · intro c rest ihc ihrest t'
    simp only [findInList, preorderList, List.filter_append]
    rw [ihc t']
    cases hfc : ((preorder c).filter fun er => er.tag == Tag.user t').head? with
    | some er =>
      cases hfilter : (preorder c).filter fun er => er.tag == Tag.user t' with
      | nil => rw [hfilter] at hfc; simp at hfc
      | cons a as =>
        rw [hfilter] at hfc
        simp only [List.head?_cons, Option.some.injEq] at hfc
        subst hfc
        simp
    | none =>
      have hnil : ((preorder c).filter fun er => er.tag == Tag.user t') = [] := by
        cases hfilter : (preorder c).filter fun er => er.tag == Tag.user t' with
        | nil => rfl
        | cons a as => rw [hfilter] at hfc; simp at hfc
      rw [hnil]
      simp [ihrest t']

/-! ## C9 -/

/-- C9: for every error, location and recovery value,
`with_recovery(e, r).recover()` returns the pair of `r` and a plain handle
holding the very same frame that `discard_recovery()` yields on the same
original value; consequently the two frames render identically under the
indented Debug renderer, the compact renderer, and the root-payload Display
text. Both terminal operations leave the frame tree unchanged. -/
theorem recover_discard_agree (R : Type) (r : R) (e : NativeError) (loc : Location) :
    recover (withRecovery e loc r) = (r, discardRecovery (withRecovery e loc r)) ∧
    writeExn (recover (withRecovery e loc r)).2.frame 0 "" =
      writeExn (discardRecovery (withRecovery e loc r)).frame 0 "" ∧
    compactNode (recover (withRecovery e loc r)).2.frame true "" =
      compactNode (discardRecovery (withRecovery e loc r)).frame true "" ∧
    (recover (withRecovery e loc r)).2.frame.error.display =
      (discardRecovery (withRecovery e loc r)).frame.error.display :=
  ⟨rfl, rfl, rfl, rfl⟩

/-! ## C10 -/

theorem stdChain_cons (e : ErasedError) (l : Location) (c : Frame) (cs : List Frame) :
    stdChain (.mk e l (c :: cs)) = c :: stdChain c := by
  rw [stdChain]
  simp [sourceStd, Frame.children]

theorem stdChain_nil (e : ErasedError) (l : Location) :
    stdChain (.mk e l []) = [] := by
  rw [stdChain]
  simp [sourceStd, Frame.children]

theorem stdChain_eq_firstPath (f : Frame) : stdChain f = firstPath f := by
  refine @Frame.rec
    (fun f => stdChain f = firstPath f)
    (fun cs => ∀ e l, stdChain (.mk e l cs) = firstPath (.mk e l cs))
    ?_ ?_ ?_ f
  · intro e l cs ih
    exact ih e l
  · intro e l
    rw [stdChain_nil, firstPath]
  · intro c rest ihc _ e l
    rw [stdChain_cons, firstPath, ihc]

/-- C10: `<Frame as Error>::source` returns the first child when one exists
and nothing on a leaf; therefore the native cause chain walked from a boxed
`Exn` root is exactly the path of first children, and is entirely insensitive
to later siblings (merged or suppressed causes), which never appear in it. -/
theorem frame_source_first_child :
    (∀ e l, sourceStd (.mk e l []) = none) ∧
    (∀ e l c cs, sourceStd (.mk e l (c :: cs)) = some c) ∧
    (∀ f, stdChain f = firstPath f) ∧
    (∀ e l c cs cs', stdChain (.mk e l (c :: cs)) = stdChain (.mk e l (c :: cs'))) := by
  refine ⟨?_, ?_, stdChain_eq_firstPath, ?_⟩
  · intro e l
    simp [sourceStd, Frame.children]
  · intro e l c cs
    simp [sourceStd, Frame.children]
  · intro e l c cs cs'
    rw [stdChain_cons, stdChain_cons]
